import Mathlib

/-!
Verification of the timekeeper temporal core.

This file is a shallow embedding of the hierarchical temporal system:

* `src/python/agent_temporal.py` (class `AgentTemporal`): timepoints over a
  mixed-radix unit hierarchy, absolute-value conversion, add, subtract,
  compare and human-time mapping.
* `src/core/temporal/universe.py` (class `TemporalUniverse`): the validating
  constructor and the cumulative-factor based absolute conversions.
* `src/python/adaptive_agent_temporal.py` (class `AdaptiveAgentTemporal`):
  operation tracking counters and the `adjust_subdivision` mutation.
* `src/python/task_scheduler.py` (class `TaskScheduler`): the greedy
  dependency-respecting scheduling pass.

Modelling conventions.  A hierarchy with base (finest) unit last is encoded
by the list `ks` of its subdivision factors, coarsest first (the default
hierarchy epoch/24, cycle/60, step/1000, microstep is `[24, 60, 1000]`), and
a timepoint by the list of its coordinates, coarsest first, one per unit
(length `ks.length + 1`).  Python dictionaries keyed by unit names become
lists in unit order; Python numbers (stored in floats that are exact on the
integer values the code manipulates) become `Nat` or `Int` with exact
arithmetic; functions that raise become `Except`-valued.
-/

namespace Timekeeper

/-- `AgentTemporal.to_base_units`: the absolute value of a timepoint, summing
each coordinate times its conversion factor to the base unit.  The factor of
the coordinate at depth `i` is the product of the remaining subdivision
factors, which is how `_compute_conversions` fills the factor table for a
base-last hierarchy. -/
def toBaseUnits : List ℕ → List ℕ → ℕ
  | _, [] => 0
  | ks, a :: as => a * ks.prod + toBaseUnits ks.tail as

/-- `AgentTemporal.from_base_units`: decompose an absolute value coarsest to
finest; at each non-base unit take the integer quotient of the remainder by
that unit's base-unit factor and keep the remainder (`remainder -= count *
conv` leaves `remainder % conv`); the base unit receives the final remainder
(its factor is 1, so its loop step stores the whole remainder). -/
def fromBaseUnits : List ℕ → ℕ → List ℕ
  | [], v => [v]
  | k :: ks, v => v / (k :: ks).prod :: fromBaseUnits ks (v % (k :: ks).prod)

/-- Canonical form (Definition 7 in the source docstrings): every coordinate
except the coarsest is strictly below the subdivision factor that links it to
its coarser neighbour, and the lengths match the hierarchy. -/
def canonical : List ℕ → List ℕ → Bool
  | [], [_] => true
  | k :: ks, _ :: a :: as => decide (a < k) && canonical ks (a :: as)
  | _, _ => false

/-- `AgentTemporal.normalize`: convert to the base-unit measure and back. -/
def normalize (ks : List ℕ) (tp : List ℕ) : List ℕ :=
  fromBaseUnits ks (toBaseUnits ks tp)

/-- `AgentTemporal.create_timepoint`: the keyword arguments fill a
zero-initialised full coordinate vector (given here already filled) and the
result is normalized. -/
def createTimepoint (ks : List ℕ) (vals : List ℕ) : List ℕ :=
  normalize ks vals

/-- The default hierarchy of `AgentTemporal.__init__`: epoch (24 cycles),
cycle (60 steps), step (1000 microsteps), microstep (base). -/
def defaultKs : List ℕ := [24, 60, 1000]

/-- Boolean success test for `Except` results (an exception propagates to the
caller exactly when this is `false`). -/
def isOkE {α : Type} : Except String α → Bool
  | .ok _ => true
  | .error _ => false

instance exceptDecidableEq {ε α : Type} [DecidableEq ε] [DecidableEq α] :
    DecidableEq (Except ε α) := fun x y =>
  match x, y with
  | .ok u, .ok v =>
    if h : u = v then isTrue (congrArg Except.ok h)
    else isFalse (fun hh => h (Except.ok.inj hh))
  | .ok _, .error _ => isFalse (fun hh => Except.noConfusion hh)
  | .error _, .ok _ => isFalse (fun hh => Except.noConfusion hh)
  | .error u, .error v =>
    if h : u = v then isTrue (congrArg Except.error h)
    else isFalse (fun hh => h (Except.error.inj hh))

/-- `AgentTemporal.from_base_units` over `Int`, exactly as the source walks
the units: there is no sign check, each step takes the floor quotient by the
conversion factor of the unit (Python float floor division) and subtracts
`count * conv` from the remainder; the base unit (factor 1) stores the whole
remainder. -/
def fromBaseUnitsZ : List ℕ → ℤ → List ℤ
  | [], v => [v]
  | k :: ks, v =>
    let conv : ℤ := ((k :: ks).prod : ℕ)
    let count := Int.fdiv v conv
    count :: fromBaseUnitsZ ks (v - count * conv)

/-- `TemporalUniverse.__init__` cumulative factor construction: starting from
`[1]`, walk the subdivision list from finest to coarsest, multiplying and
inserting at the front.  Entry `i` is the product of `subdivisions[i:]`. -/
def cumulativeFactors : List ℤ → List ℤ
  | [] => [1]
  | s :: rest =>
    let r := cumulativeFactors rest
    s * r.headD 1 :: r

/-- The state built by `TemporalUniverse.__init__` (unit names coarsest
first, subdivision factors, cached cumulative factors). -/
structure TemporalUniverse where
  units : List String
  subdivisions : List ℤ
  cumulative : List ℤ
deriving DecidableEq

/-- `TemporalUniverse.__init__`: rejects fewer than two units, a subdivision
list whose length is not `units - 1`, and any factor at most 1; it performs
no duplicate-name check before storing the units. -/
def tuInit (units : List String) (subs : List ℤ) : Except String TemporalUniverse :=
  if units.length ≤ 1 then .error "At least two temporal units are required"
  else if subs.length ≠ units.length - 1 then
    .error "Expected a subdivision factor count of one less than the unit count"
  else if subs.any (fun k => decide (k ≤ 1)) then
    .error "Subdivision factors must be greater than 1"
  else .ok ⟨units, subs, cumulativeFactors subs⟩

/-- Python `divmod` chain: fold floor division and floor remainder over a
divisor list, returning the quotients and the final remainder. -/
def decomposeDivmod : List ℤ → ℤ → List ℤ × ℤ
  | [], v => ([], v)
  | d :: ds, v =>
    let q := Int.fdiv v d
    let r := Int.fmod v d
    let p := decomposeDivmod ds r
    (q :: p.1, p.2)

/-- `TemporalUniverse.absolute_to_timepoint`: negative values raise; the
non-negative value is decomposed over `units[:-1]` using, for the unit at
index `i`, the divisor `cumulative_factors[i + 1]` (note the shifted index:
this is the NEXT unit's distance to the base), and the final remainder is
stored in the finest unit.  Coordinates are returned in unit order. -/
def absoluteToTimepoint (tu : TemporalUniverse) (v : ℤ) : Except String (List ℤ) :=
  if v < 0 then .error "Absolute time value cannot be negative"
  else
    let p := decomposeDivmod (tu.cumulative.drop 1) v
    .ok (p.1 ++ [p.2])

/-- One entry of the `unit_config` list fed to `AgentTemporal.__init__`. -/
structure UnitSpec where
  name : String
  subdivisions : Option ℤ
  isBase : Bool
deriving DecidableEq

/-- `next(i for i, u in enumerate(self.units) if u.get("is_base", False))`:
the first index flagged as base; `StopIteration` when there is none. -/
def findBaseIndex : List UnitSpec → Option ℕ
  | [] => none
  | u :: rest => if u.isBase then some 0 else (findBaseIndex rest).map (· + 1)

/-- The left half of `AgentTemporal._compute_conversions`: walking from just
before the base unit to the coarsest unit, multiply the subdivision factors;
entry `i` is the product of the factors from unit `i` down to the base.  A
missing factor on a non-base unit is a `TypeError` in the source (`None`
result here). -/
def suffixProducts : List (Option ℤ) → Option (List ℚ)
  | [] => some []
  | s :: rest => do
    let tail ← suffixProducts rest
    let k ← s
    pure ((k : ℚ) * tail.headD 1 :: tail)

/-- The right half of `AgentTemporal._compute_conversions`: units finer than
the base divide the running factor (skipping a `None` factor); dividing by a
zero factor is a `ZeroDivisionError` (`None` result here). -/
def postToBase : ℚ → List (Option ℤ) → Option (List ℚ)
  | _, [] => some []
  | cur, none :: rest => (postToBase cur rest).map (cur :: ·)
  | cur, some k :: rest =>
    if k = 0 then none
    else
      let c := cur / (k : ℚ)
      (postToBase c rest).map (c :: ·)

/-- `AgentTemporal._compute_conversions`: the per-unit distance-to-base
table; the pairwise factor table divides `to_base[i] / to_base[j]` for every
pair, which raises `ZeroDivisionError` exactly when some distance is zero,
so a zero entry makes the whole computation fail. -/
def computeToBase (us : List UnitSpec) (b : ℕ) : Option (List ℚ) := do
  let pre ← suffixProducts ((us.take b).map (fun u => u.subdivisions))
  let post ← postToBase 1 ((us.drop (b + 1)).map (fun u => u.subdivisions))
  let tb := pre ++ (1 : ℚ) :: post
  if tb.any (fun x => decide (x = 0)) then none else some tb

/-- `unit_indices = {u["name"]: i for i, u in enumerate(self.units)}`. -/
def buildUnitIndices (us : List UnitSpec) : List (String × ℕ) :=
  us.enum.map (fun p => (p.2.name, p.1))

/-- Python dict lookup on `unit_indices`: with duplicate names the last
binding wins, so search the reversed association list. -/
def lookupIndex (l : List (String × ℕ)) (n : String) : Option ℕ :=
  (l.reverse.find? (fun p => p.1 == n)).map (fun p => p.2)

/-- The state built by `AgentTemporal.__init__`: the unit list, the index of
the first unit flagged `is_base`, the name-to-index dictionary, and the
distance-to-base column of the conversion table. -/
structure Engine where
  units : List UnitSpec
  baseUnitIndex : ℕ
  unitIndices : List (String × ℕ)
  toBase : List ℚ
deriving DecidableEq

/-- `AgentTemporal.__init__` on an explicit `unit_config`: no validation is
performed; the only failure paths are `next(...)` finding no base unit
(`StopIteration`) and `_compute_conversions` failing. -/
def initEngine (us : List UnitSpec) : Except String Engine :=
  match findBaseIndex us with
  | none => .error "StopIteration: no unit is marked is_base"
  | some b =>
    match computeToBase us b with
    | none => .error "error while computing conversion factors"
    | some tb => .ok ⟨us, b, buildUnitIndices us, tb⟩

/-- In-place update `self.units[idx]["subdivisions"] = new_subdiv`. -/
def setSubdivision : List UnitSpec → ℕ → ℤ → List UnitSpec
  | [], _, _ => []
  | u :: rest, 0, f => { u with subdivisions := some f } :: rest
  | u :: rest, Nat.succ n, f => u :: setSubdivision rest n f

/-- `AdaptiveAgentTemporal.adjust_subdivision`: rejects an unknown name and
the base unit, then stores the new factor (with no check on its value) and
recomputes the conversion table. -/
def adjustSubdivision (e : Engine) (name : String) (f : ℤ) : Except String Engine :=
  match lookupIndex e.unitIndices name with
  | none => .error ("Unknown unit: " ++ name)
  | some idx =>
    if idx = e.baseUnitIndex then
      .error "Cannot adjust subdivision factor of the base unit"
    else
      let us := setSubdivision e.units idx f
      match computeToBase us e.baseUnitIndex with
      | none => .error "error while recomputing conversion factors"
      | some tb => .ok { e with units := us, toBase := tb }

/-- The default `unit_config` of `AgentTemporal.__init__`. -/
def defaultConfig : List UnitSpec :=
  [⟨"epoch", some 24, false⟩, ⟨"cycle", some 60, false⟩,
   ⟨"step", some 1000, false⟩, ⟨"microstep", none, true⟩]

/-- The engine state `AgentTemporal()` builds from the default config. -/
def defaultEngine : Engine :=
  ⟨defaultConfig, 3, buildUnitIndices defaultConfig, [1440000, 60000, 1000, 1]⟩

/-- The three-unit universe used as the concrete instance for the
`absolute_to_timepoint` analysis. -/
def tu3 : TemporalUniverse :=
  ⟨["epoch", "cycle", "step"], [24, 60], cumulativeFactors [24, 60]⟩

/-- A non-base `unit_config` entry with the given name and factor. -/
def nonBaseUnit (p : String × ℤ) : UnitSpec := ⟨p.1, some p.2, false⟩

/-- `AgentTemporal.compare_timepoints`: -1, 0 or 1 by absolute value. -/
def compareTimepoints (ks : List ℕ) (t1 t2 : List ℕ) : ℤ :=
  let b1 := toBaseUnits ks t1
  let b2 := toBaseUnits ks t2
  if b1 < b2 then -1 else if b2 < b1 then 1 else 0

/-- `AgentTemporal.add_time`: the delta components become a normalized
timepoint via `create_timepoint`, both are converted to base units, summed,
and converted back. -/
def addTime (ks : List ℕ) (tp delta : List ℕ) : List ℕ :=
  fromBaseUnits ks (toBaseUnits ks tp + toBaseUnits ks (createTimepoint ks delta))

/-- `AgentTemporal.subtract_time`: raises when the subtrahend exceeds the
minuend in base units (`if base_sub > base_main`), otherwise decomposes the
difference. -/
def subtractTime (ks : List ℕ) (tp delta : List ℕ) : Except String (List ℕ) :=
  let baseMain := toBaseUnits ks tp
  let baseSub := toBaseUnits ks (createTimepoint ks delta)
  if baseMain < baseSub then
    .error "Subtraction would produce a negative time result."
  else .ok (fromBaseUnits ks (baseMain - baseSub))

/-- `create_timepoint()` with no arguments: the all-zero coordinate vector,
normalized. -/
def zeroTimepoint (ks : List ℕ) : List ℕ :=
  createTimepoint ks (List.replicate (ks.length + 1) 0)

/-- A `TaskScheduler` task record (dictionary in the source). -/
structure Task where
  id : String
  duration : List ℕ
  dependencies : List String
  start : Option (List ℕ)
  endTime : Option (List ℕ)
  agent : Option ℕ
deriving DecidableEq

/-- `TaskScheduler.add_task`: stores the task unscheduled (start, end and
agent all none). -/
def mkTask (id : String) (duration : List ℕ) (deps : List String) : Task :=
  ⟨id, duration, deps, none, none, none⟩

/-- Python `max(xs, key=to_base_units)`: keep the current maximum and replace
it only on a strictly greater key, so the first of equal keys wins. -/
def maxByBase (ks : List ℕ) (h : List ℕ) (t : List (List ℕ)) : List ℕ :=
  t.foldl (fun acc x => if toBaseUnits ks x > toBaseUnits ks acc then x else acc) h

/-- The agent scan in `TaskScheduler.schedule`: start from agent 0 and its
availability, then replace whenever a strictly earlier availability is seen
(ties keep the lowest index). -/
def earliestAgent (ks : List ℕ) (avail : List (List ℕ)) : ℕ × List ℕ :=
  avail.enum.foldl
    (fun p ia => if compareTimepoints ks ia.2 p.2 < 0 then ia else p)
    (0, avail.headD (zeroTimepoint ks))

/-- The body of the `for task in ready` loop of `TaskScheduler.schedule`:
compute the dependency-based earliest start (`next(...)` over the scheduled
list always finds a scheduled dependency with its end set for a ready task,
so the `getD` default is never used), pick the earliest agent, commit the
task's start, end and agent, update that agent's availability, and move the
task from unscheduled to scheduled (removal by identity of the task record,
realised here by its id). -/
def scheduleTask (ks : List ℕ) (st : List Task × List Task × List (List ℕ))
    (task : Task) : List Task × List Task × List (List ℕ) :=
  let sch := st.1
  let uns := st.2.1
  let avail := st.2.2
  let depEnds := task.dependencies.map
    (fun d => ((sch.find? (fun s => s.id == d)).bind (fun s => s.endTime)).getD
      (zeroTimepoint ks))
  let earliestStart := match depEnds with
    | [] => zeroTimepoint ks
    | h :: t => maxByBase ks h t
  let pick := earliestAgent ks avail
  let taskStart := if compareTimepoints ks pick.2 earliestStart > 0 then pick.2
    else earliestStart
  let taskEnd := addTime ks taskStart task.duration
  let task1 := { task with
    start := some taskStart
    endTime := some taskEnd
    agent := some pick.1 }
  (sch ++ [task1], uns.eraseP (fun t => t.id == task.id), avail.set pick.1 taskEnd)

/-- The `while unscheduled` loop of `TaskScheduler.schedule`.  Each pass
filters the ready tasks; an empty ready set raises (the error payload is the
pair of the task records mutated so far and the untouched remainder, which
is what `self.tasks` holds after the exception).  Every pass with a
non-empty ready set commits at least one task, so `tasks.length` passes of
fuel always suffice; the fuel-0 fallback repeats the loop condition. -/
def scheduleLoop (ks : List ℕ) :
    ℕ → List Task → List Task → List (List ℕ) →
      Except (List Task × List Task) (List Task)
  | 0, sch, uns, _ =>
    if uns.isEmpty then .ok sch else .error (sch, uns)
  | fuel + 1, sch, uns, avail =>
    if uns.isEmpty then .ok sch
    else
      let schedIds := sch.map (fun s => s.id)
      let ready := uns.filter
        (fun t => t.dependencies.all (fun d => schedIds.contains d))
      if ready.isEmpty then .error (sch, uns)
      else
        let st := ready.foldl (scheduleTask ks) (sch, uns, avail)
        scheduleLoop ks fuel st.1 st.2.1 st.2.2

/-- `TaskScheduler.schedule(agent_count)`: all agents start available at the
zero timepoint and no task is scheduled yet. -/
def schedule (ks : List ℕ) (tasks : List Task) (agentCount : ℕ) :
    Except (List Task × List Task) (List Task) :=
  scheduleLoop ks tasks.length [] tasks (List.replicate agentCount (zeroTimepoint ks))

/-- The three tasks of the C5 scenario: T1 takes 100 steps, T2 takes 1 cycle
after T1, T3 takes 50 steps after T2. -/
def c5Tasks : List Task :=
  [mkTask "T1" [0, 0, 100, 0] [],
   mkTask "T2" [0, 1, 0, 0] ["T1"],
   mkTask "T3" [0, 0, 50, 0] ["T2"]]

/-- The three tasks of the C6 scenario, forming the dependency cycle
T1 -> T3 -> T2 -> T1. -/
def c6Tasks : List Task :=
  [mkTask "T1" [0, 0, 100, 0] ["T3"],
   mkTask "T2" [0, 1, 0, 0] ["T1"],
   mkTask "T3" [0, 0, 50, 0] ["T2"]]

/-- The `known_map` of `AgentTemporal.to_human_time` (unit to label). -/
def toHumanMap : List (String × String) :=
  [("step", "seconds"), ("cycle", "minutes"), ("epoch", "hours")]

/-- The `known_map` of `AgentTemporal.from_human_time` (label to unit). -/
def fromHumanMap : List (String × String) :=
  [("seconds", "step"), ("minutes", "cycle"), ("hours", "epoch")]

/-- The default hierarchy unit names in dictionary order. -/
def defaultUnitNames : List String := ["epoch", "cycle", "step", "microstep"]

/-- `AgentTemporal.to_human_time` on the default hierarchy: normalize first,
then walk the unit dictionary in order, emitting a (label, amount) entry for
every unit present in the known map; microstep has no mapping and its
coordinate is silently dropped. -/
def toHumanTime (tp : List ℕ) : List (String × ℕ) :=
  (defaultUnitNames.zip (normalize defaultKs tp)).filterMap
    (fun p => (toHumanMap.find? (fun q => q.1 == p.1)).map (fun q => (q.2, p.2)))

/-- Dictionary update `agent_tp[agent_unit] = val` on the default unit
order. -/
def setUnitAux : List String → List ℕ → String → ℕ → List ℕ
  | [], tp, _, _ => tp
  | _, [], _, _ => []
  | n :: ns, x :: xs, u, v =>
    if n == u then v :: xs else x :: setUnitAux ns xs u v

/-- Write `v` at the coordinate of the unit named `u`. -/
def setUnit (tp : List ℕ) (u : String) (v : ℕ) : List ℕ :=
  setUnitAux defaultUnitNames tp u v

/-- `AgentTemporal.from_human_time` on the default hierarchy: start from the
all-zero coordinate dictionary, write each given label's value into its
mapped unit, raising on an unknown label, and normalize the result. -/
def fromHumanTime (hm : List (String × ℕ)) : Except String (List ℕ) := do
  let tp ← hm.foldlM
    (fun (acc : List ℕ) (p : String × ℕ) =>
      match fromHumanMap.find? (fun q => q.1 == p.1) with
      | none => Except.error ("Human unit " ++ p.1 ++ " not recognized.")
      | some q => Except.ok (setUnit acc q.2 p.2))
    [0, 0, 0, 0]
  pure (normalize defaultKs tp)

/-- The counter state of `AdaptiveAgentTemporal`: the `operations` usage
dictionary (a defaultdict over ints, so a total function), the running
`op_counter`, the `adaptation_threshold`, and the number of times
`_check_for_adjustment` has run.  The body of `_check_for_adjustment` only
reads `operations` and possibly mutates unit factors through
`adjust_subdivision` (modelled by `adjustSubdivision`); it never touches any
counter, so for the counter state its invocation is fully described by the
invocation count. -/
structure AdaptiveState where
  operations : String → ℕ
  opCounter : ℕ
  adaptationThreshold : ℕ
  adjustmentChecks : ℕ

/-- `self.operations[key] += 1` on a defaultdict. -/
def bumpCounter (f : String → ℕ) (k : String) : String → ℕ :=
  fun x => if x = k then f x + 1 else f x

/-- `AdaptiveAgentTemporal.track_operation`: bump the op-type counter (and
the `"op:unit"` counter when a unit name is given; Python truthiness skips
the empty string), increment `op_counter`, and when it reaches the
threshold, run `_check_for_adjustment` and reset `op_counter` to 0, keeping
the history counters. -/
def trackOperation (s : AdaptiveState) (opType : String) (unitName : Option String) :
    AdaptiveState :=
  let ops1 := bumpCounter s.operations opType
  let ops2 := match unitName with
    | some u => if u = "" then ops1 else bumpCounter ops1 (opType ++ ":" ++ u)
    | none => ops1
  let c := s.opCounter + 1
  if s.adaptationThreshold ≤ c then
    ⟨ops2, 0, s.adaptationThreshold, s.adjustmentChecks + 1⟩
  else
    ⟨ops2, c, s.adaptationThreshold, s.adjustmentChecks⟩

/-- `AdaptiveAgentTemporal.__init__` counter state: empty usage dictionary,
zero counter, threshold 100, no adjustment pass yet. -/
def initialAdaptiveState : AdaptiveState := ⟨fun _ => 0, 0, 100, 0⟩

/-- `AdaptiveAgentTemporal.add_time`: delegate to the engine, then track. -/
def addTimeTracked (ks : List ℕ) (s : AdaptiveState) (tp delta : List ℕ) :
    List ℕ × AdaptiveState :=
  (addTime ks tp delta, trackOperation s "add" none)

/-- `AdaptiveAgentTemporal.subtract_time`: a raising delegate propagates the
exception before `track_operation` is reached, leaving the counters
untouched. -/
def subtractTimeTracked (ks : List ℕ) (s : AdaptiveState) (tp delta : List ℕ) :
    Except String (List ℕ) × AdaptiveState :=
  match subtractTime ks tp delta with
  | .error e => (.error e, s)
  | .ok r => (.ok r, trackOperation s "subtract" none)

/-- `AdaptiveAgentTemporal.compare_timepoints`: delegate, then track. -/
def compareTimepointsTracked (ks : List ℕ) (s : AdaptiveState) (t1 t2 : List ℕ) :
    ℤ × AdaptiveState :=
  (compareTimepoints ks t1 t2, trackOperation s "compare" none)

/-- `AdaptiveAgentTemporal.to_human_time`: delegate, then track. -/
def toHumanTimeTracked (s : AdaptiveState) (tp : List ℕ) :
    List (String × ℕ) × AdaptiveState :=
  (toHumanTime tp, trackOperation s "to_human" none)

/-- `AdaptiveAgentTemporal.from_human_time`: delegate (which may raise),
then track. -/
def fromHumanTimeTracked (s : AdaptiveState) (hm : List (String × ℕ)) :
    Except String (List ℕ) × AdaptiveState :=
  match fromHumanTime hm with
  | .error e => (.error e, s)
  | .ok r => (.ok r, trackOperation s "from_human" none)

theorem toBaseUnits_fromBaseUnits (ks : List ℕ) (v : ℕ) :
    toBaseUnits ks (fromBaseUnits ks v) = v := by
  induction ks generalizing v with
  | nil => simp [fromBaseUnits, toBaseUnits]
  | cons k ks ih =>
    simp only [fromBaseUnits, toBaseUnits, List.tail_cons]
    rw [ih]
    exact Nat.div_add_mod' v (k :: ks).prod

theorem canonical_prod_pos (ks : List ℕ) (as : List ℕ)
    (hc : canonical ks as = true) : 0 < ks.prod := by
  induction ks generalizing as with
  | nil => simp
  | cons k ks ih =>
    match as with
    | [] => simp [canonical] at hc
    | [a] => simp [canonical] at hc
    | a0 :: a1 :: as2 =>
      simp only [canonical, Bool.and_eq_true, decide_eq_true_eq] at hc
      obtain ⟨h1, h2⟩ := hc
      have hk : 0 < k := Nat.lt_of_le_of_lt (Nat.zero_le a1) h1
      simpa [List.prod_cons] using Nat.mul_pos hk (ih (a1 :: as2) h2)

theorem toBaseUnits_lt (ks : List ℕ) (a : ℕ) (as : List ℕ) (k : ℕ)
    (hc : canonical ks (a :: as) = true) (ha : a < k) :
    toBaseUnits ks (a :: as) < k * ks.prod := by
  induction ks generalizing a as k with
  | nil =>
    match as with
    | [] => simpa [toBaseUnits] using ha
    | _ :: _ => simp [canonical] at hc
  | cons k1 ks ih =>
    match as with
    | [] => simp [canonical] at hc
    | a1 :: as2 =>
      simp only [canonical, Bool.and_eq_true, decide_eq_true_eq] at hc
      obtain ⟨h1, h2⟩ := hc
      have hsub : toBaseUnits ks (a1 :: as2) < k1 * ks.prod := ih a1 as2 k1 h2 h1
      simp only [toBaseUnits, List.tail_cons, List.prod_cons]
      calc a * (k1 * ks.prod) + toBaseUnits ks (a1 :: as2)
          < a * (k1 * ks.prod) + k1 * ks.prod := Nat.add_lt_add_left hsub _
        _ = (a + 1) * (k1 * ks.prod) := (Nat.succ_mul a (k1 * ks.prod)).symm
        _ ≤ k * (k1 * ks.prod) :=
            Nat.mul_le_mul_right (k1 * ks.prod) (Nat.succ_le_of_lt ha)

theorem fromBaseUnits_toBaseUnits (ks : List ℕ) (as : List ℕ)
    (hc : canonical ks as = true) : fromBaseUnits ks (toBaseUnits ks as) = as := by
  induction ks generalizing as with
  | nil =>
    match as with
    | [] => simp [canonical] at hc
    | [a] => simp [toBaseUnits, fromBaseUnits]
    | _ :: _ :: _ => simp [canonical] at hc
  | cons k ks ih =>
    match as with
    | [] => simp [canonical] at hc
    | [a] => simp [canonical] at hc
    | a :: a1 :: as2 =>
      simp only [canonical, Bool.and_eq_true, decide_eq_true_eq] at hc
      obtain ⟨h1, h2⟩ := hc
      have ht : toBaseUnits ks (a1 :: as2) < (k :: ks).prod := by
        simpa [List.prod_cons] using toBaseUnits_lt ks a1 as2 k h2 h1
      have hP : 0 < (k :: ks).prod := Nat.lt_of_le_of_lt (Nat.zero_le _) ht
      have hT : toBaseUnits (k :: ks) (a :: a1 :: as2)
          = a * (k :: ks).prod + toBaseUnits ks (a1 :: as2) := rfl
      rw [hT]
      simp only [fromBaseUnits]
      have hdiv : (a * (k :: ks).prod + toBaseUnits ks (a1 :: as2)) / (k :: ks).prod
          = a := by
        rw [Nat.add_comm, Nat.mul_comm, Nat.add_mul_div_left _ _ hP,
          Nat.div_eq_of_lt ht, Nat.zero_add]
      have hmod : (a * (k :: ks).prod + toBaseUnits ks (a1 :: as2)) % (k :: ks).prod
          = toBaseUnits ks (a1 :: as2) := by
        rw [Nat.add_comm, Nat.mul_comm, Nat.add_mul_mod_self_left,
          Nat.mod_eq_of_lt ht]
      rw [hdiv, hmod, ih (a1 :: as2) h2]

/-- C3: on every hierarchy, converting an absolute value to a timepoint and
back is the identity, and converting a canonical timepoint to its absolute
value and back returns the same timepoint. -/
theorem c3_absolute_roundtrip (ks : List ℕ) :
    (∀ v : ℕ, toBaseUnits ks (fromBaseUnits ks v) = v) ∧
    (∀ tp : List ℕ, canonical ks tp = true →
      fromBaseUnits ks (toBaseUnits ks tp) = tp) :=
  ⟨fun v => toBaseUnits_fromBaseUnits ks v,
   fun tp hc => fromBaseUnits_toBaseUnits ks tp hc⟩

theorem c3_absolute_roundtrip_witness :
    toBaseUnits defaultKs (fromBaseUnits defaultKs 2070000) = 2070000 ∧
    canonical defaultKs [1, 10, 30, 0] = true ∧
    fromBaseUnits defaultKs (toBaseUnits defaultKs [1, 10, 30, 0]) = [1, 10, 30, 0] :=
  ⟨(c3_absolute_roundtrip defaultKs).1 2070000, by decide,
   (c3_absolute_roundtrip defaultKs).2 [1, 10, 30, 0] (by decide)⟩

/-- C4: on the default hierarchy, `create_timepoint(cycle=70)` normalizes to
epoch 2, cycle 22, step 0, microstep 0, which is canonical. -/
theorem c4_create_cycle70 :
    createTimepoint defaultKs [0, 70, 0, 0] = [2, 22, 0, 0] ∧
    canonical defaultKs [2, 22, 0, 0] = true := by
  decide

theorem computeToBase_defaultConfig :
    computeToBase defaultConfig 3 = some [1440000, 60000, 1000, 1] := by
  norm_num [computeToBase, defaultConfig, suffixProducts, postToBase]

theorem initEngine_defaultConfig : initEngine defaultConfig = .ok defaultEngine := by
  have hb : findBaseIndex defaultConfig = some 3 := by decide
  simp [initEngine, hb, computeToBase_defaultConfig, defaultEngine]

/-- C1 counterexample: a `TemporalUniverse` with two units sharing the name
"epoch" constructs successfully, and `AgentTemporal.__init__` accepts a
single-unit configuration; neither violating configuration raises. -/
theorem c1_counterexample :
    isOkE (tuInit ["epoch", "epoch"] [24]) = true ∧
    isOkE (initEngine [⟨"microstep", none, true⟩]) = true := by
  decide

theorem findBaseIndex_append (pre : List (String × ℤ)) :
    findBaseIndex (pre.map nonBaseUnit ++ [⟨"base", none, true⟩]) = some pre.length := by
  induction pre with
  | nil => rfl
  | cons p rest ih =>
    simp only [List.map_cons, List.cons_append, findBaseIndex, nonBaseUnit]
    simp [ih]

theorem suffixProducts_nonzero (pre : List (String × ℤ))
    (h : ∀ p ∈ pre, p.2 ≠ 0) :
    ∃ l, suffixProducts (pre.map (fun p => some p.2)) = some l ∧
      ∀ x ∈ l, x ≠ (0 : ℚ) := by
  induction pre with
  | nil => exact ⟨[], rfl, by simp⟩
  | cons p rest ih =>
    obtain ⟨l, hl, hnz⟩ := ih (fun q hq => h q (List.mem_cons_of_mem p hq))
    refine ⟨(p.2 : ℚ) * l.headD 1 :: l, ?_, ?_⟩
    · simp [suffixProducts, hl]
    · intro x hx
      rcases List.mem_cons.mp hx with hx | hx
      · subst hx
        apply mul_ne_zero
        · exact_mod_cast h p (List.mem_cons_self p rest)
        · cases l with
          | nil => simp
          | cons y ys => simpa using hnz y (List.mem_cons_self y ys)
      · exact hnz x hx

theorem computeToBase_append_ok (pre : List (String × ℤ)) (b : UnitSpec)
    (h : ∀ p ∈ pre, p.2 ≠ 0) :
    ∃ l, computeToBase (pre.map nonBaseUnit ++ [b]) pre.length = some (l ++ [(1 : ℚ)])
      ∧ ∀ x ∈ l, x ≠ 0 := by
  obtain ⟨l, hl, hnz⟩ := suffixProducts_nonzero pre h
  refine ⟨l, ?_, hnz⟩
  have hA : pre.length = (pre.map nonBaseUnit).length := by simp
  have htake : (pre.map nonBaseUnit ++ [b]).take pre.length = pre.map nonBaseUnit := by
    rw [hA, List.take_left]
  have hdrop : (pre.map nonBaseUnit ++ [b]).drop (pre.length + 1) = [] := by
    apply List.drop_eq_nil_of_le
    simp
  have hmap : (pre.map nonBaseUnit).map (fun u => u.subdivisions)
      = pre.map (fun p => some p.2) := by
    rw [List.map_map]
    rfl
  have hany : ((l ++ [(1 : ℚ)]).any fun x => decide (x = 0)) = false := by
    by_contra hb
    rw [Bool.not_eq_false, List.any_eq_true] at hb
    obtain ⟨x, hx, hdx⟩ := hb
    rw [decide_eq_true_eq] at hdx
    rcases List.mem_append.mp hx with hx | hx
    · exact hnz x hx hdx
    · rw [List.mem_singleton] at hx
      subst hx
      exact one_ne_zero hdx
  simp only [computeToBase, htake, hdrop, hmap, hl, List.map_nil, postToBase,
    Option.bind_eq_bind, Option.some_bind, hany, Bool.false_eq_true, if_false]

/-- C1 amended: `TemporalUniverse.__init__` succeeds exactly when there are
at least two units, the factor list has one entry fewer than the unit list,
and every factor exceeds 1 — duplicate names are never rejected; and
`AgentTemporal.__init__` validates nothing at all: any base-terminated
configuration with nonzero numeric factors builds, regardless of unit count,
duplicate names, or factors at most 1. -/
theorem c1_construction_validation :
    (∀ (units : List String) (subs : List ℤ),
      isOkE (tuInit units subs) = true ↔
        (2 ≤ units.length ∧ subs.length = units.length - 1 ∧ ∀ k ∈ subs, 1 < k)) ∧
    (∀ pre : List (String × ℤ), (∀ p ∈ pre, p.2 ≠ 0) →
      isOkE (initEngine (pre.map nonBaseUnit ++ [⟨"base", none, true⟩])) = true) := by
  constructor
  · intro units subs
    simp only [tuInit]
    split_ifs with h1 h2 h3
    · simp only [isOkE, Bool.false_eq_true, false_iff]
      rintro ⟨ha, -, -⟩
      omega
    · simp only [isOkE, Bool.false_eq_true, false_iff]
      rintro ⟨-, hb, -⟩
      exact h2 hb
    · simp only [isOkE, Bool.false_eq_true, false_iff]
      rw [List.any_eq_true] at h3
      obtain ⟨k, hk, hk1⟩ := h3
      rintro ⟨-, -, hall⟩
      have h5 := hall k hk
      simp only [decide_eq_true_eq] at hk1
      omega
    · simp only [isOkE, true_iff]
      refine ⟨by omega, not_not.mp h2, fun k hk => ?_⟩
      simp only [Bool.not_eq_true, List.any_eq_false, decide_eq_true_eq] at h3
      have h6 := h3 k hk
      omega
  · intro pre h
    obtain ⟨l, hc, -⟩ := computeToBase_append_ok pre ⟨"base", none, true⟩ h
    simp [initEngine, findBaseIndex_append pre, hc, isOkE]

theorem c1_construction_validation_witness :
    isOkE (tuInit ["epoch", "cycle", "step"] [24, 60]) = true ∧
    isOkE (initEngine ([("u", (1 : ℤ)), ("u", 1)].map nonBaseUnit
      ++ [⟨"base", none, true⟩])) = true :=
  ⟨(c1_construction_validation.1 ["epoch", "cycle", "step"] [24, 60]).mpr (by decide),
   c1_construction_validation.2 [("u", 1), ("u", 1)] (by decide)⟩

/-- C2 (bug evaluation): on the three-unit universe, the absolute value of
one epoch is 1440 base units (and the agent-side decomposition inverts it to
epoch 1), yet `absolute_to_timepoint` decomposes 1440 into epoch 24 because
it divides by the NEXT unit's cumulative factor; the negative-value check,
present only in the universe implementation, is absent from the agent-side
`from_base_units`, which happily decomposes -1. -/
theorem c2_absolute_to_timepoint_bug :
    tuInit ["epoch", "cycle", "step"] [24, 60] = .ok tu3 ∧
    toBaseUnits [24, 60] [1, 0, 0] = 1440 ∧
    fromBaseUnitsZ [24, 60] 1440 = [1, 0, 0] ∧
    absoluteToTimepoint tu3 1440 = .ok [24, 0, 0] ∧
    isOkE (absoluteToTimepoint tu3 (-1)) = false ∧
    fromBaseUnitsZ [24, 60] (-1) = [-1, 23, 59] := by
  decide

/-- C8 counterexample: `adjust_subdivision("cycle", 1)` succeeds even though
the new factor is at most 1; no factor validation is performed. -/
theorem c8_counterexample :
    (1 : ℤ) ≤ 1 ∧ isOkE (adjustSubdivision defaultEngine "cycle" 1) = true := by
  refine ⟨le_refl 1, ?_⟩
  have hl : lookupIndex (buildUnitIndices defaultConfig) "cycle" = some 1 := by decide
  have hct : computeToBase (setSubdivision defaultConfig 1 1) 3
      = some [24000, 1000, 1000, 1] := by
    norm_num [computeToBase, defaultConfig, setSubdivision, suffixProducts, postToBase]
  simp [adjustSubdivision, defaultEngine, hl, hct, isOkE]

/-- C8 amended: on the default engine, `adjust_subdivision` succeeds exactly
when the named unit is one of the non-base units (epoch, cycle, step); the
new factor is never validated (any nonzero factor, including 1 or negative
values, is accepted; 0 only fails because the conversion-table rebuild then
divides by zero).  On success the named unit's factor is replaced and the
conversion table is rebuilt from the new factors. -/
theorem c8_adjust_subdivision_validation (name : String) (f : ℤ) (hf : f ≠ 0) :
    (isOkE (adjustSubdivision defaultEngine name f) = true ↔
      (name = "epoch" ∨ name = "cycle" ∨ name = "step")) ∧
    adjustSubdivision defaultEngine "cycle" f =
      .ok ⟨setSubdivision defaultConfig 1 f, 3, buildUnitIndices defaultConfig,
        [24 * ((f : ℚ) * 1000), (f : ℚ) * 1000, 1000, 1]⟩ := by
  have hfq : (f : ℚ) ≠ 0 := Int.cast_ne_zero.mpr hf
  have hcycle : computeToBase (setSubdivision defaultConfig 1 f) 3
      = some [24 * ((f : ℚ) * 1000), (f : ℚ) * 1000, 1000, 1] := by
    norm_num [computeToBase, defaultConfig, setSubdivision, suffixProducts,
      postToBase, hfq]
  have hlc : lookupIndex (buildUnitIndices defaultConfig) "cycle" = some 1 := by decide
  constructor
  · by_cases he : name = "epoch"
    · subst he
      have hle : lookupIndex (buildUnitIndices defaultConfig) "epoch" = some 0 := by
        decide
      have hset : setSubdivision defaultConfig 0 f
          = [("epoch", f), ("cycle", (60 : ℤ)), ("step", 1000)].map nonBaseUnit
            ++ [⟨"microstep", none, true⟩] := rfl
      obtain ⟨l, hcb, -⟩ := computeToBase_append_ok
        [("epoch", f), ("cycle", (60 : ℤ)), ("step", 1000)]
        ⟨"microstep", none, true⟩ (by
          intro p hp
          simp only [List.mem_cons, List.not_mem_nil, or_false] at hp
          rcases hp with hp | hp | hp <;> subst hp <;> first | exact hf | decide)
      simp [nonBaseUnit] at hcb
      simp [adjustSubdivision, defaultEngine, hle, hset, hcb, isOkE, nonBaseUnit]
    · by_cases hc : name = "cycle"
      · subst hc
        simp [adjustSubdivision, defaultEngine, hlc, hcycle, isOkE]
      · by_cases hs : name = "step"
        · subst hs
          have hls : lookupIndex (buildUnitIndices defaultConfig) "step" = some 2 := by
            decide
          have hset : setSubdivision defaultConfig 2 f
              = [("epoch", (24 : ℤ)), ("cycle", (60 : ℤ)), ("step", f)].map nonBaseUnit
                ++ [⟨"microstep", none, true⟩] := rfl
          obtain ⟨l, hcb, -⟩ := computeToBase_append_ok
            [("epoch", (24 : ℤ)), ("cycle", (60 : ℤ)), ("step", f)]
            ⟨"microstep", none, true⟩ (by
              intro p hp
              simp only [List.mem_cons, List.not_mem_nil, or_false] at hp
              rcases hp with hp | hp | hp <;> subst hp <;> first | exact hf | decide)
          simp [nonBaseUnit] at hcb
          simp [adjustSubdivision, defaultEngine, hls, hset, hcb, isOkE, nonBaseUnit]
        · by_cases hm : name = "microstep"
          · subst hm
            have hlm : lookupIndex (buildUnitIndices defaultConfig) "microstep"
                = some 3 := by decide
            simp [adjustSubdivision, defaultEngine, hlm, isOkE]
          · have h1 : (("microstep" : String) == name) = false :=
              beq_eq_false_iff_ne.mpr (fun h => hm h.symm)
            have h2 : (("step" : String) == name) = false :=
              beq_eq_false_iff_ne.mpr (fun h => hs h.symm)
            have h3 : (("cycle" : String) == name) = false :=
              beq_eq_false_iff_ne.mpr (fun h => hc h.symm)
            have h4 : (("epoch" : String) == name) = false :=
              beq_eq_false_iff_ne.mpr (fun h => he h.symm)
            have hrev : (buildUnitIndices defaultConfig).reverse
                = [("microstep", 3), ("step", 2), ("cycle", 1), ("epoch", 0)] := by
              decide
            have hnone : lookupIndex (buildUnitIndices defaultConfig) name = none := by
              simp [lookupIndex, hrev, List.find?, h1, h2, h3, h4]
            simp [adjustSubdivision, defaultEngine, hnone, isOkE, he, hc, hs]
  · simp [adjustSubdivision, defaultEngine, hlc, hcycle]

theorem c8_adjust_subdivision_validation_witness :
    isOkE (adjustSubdivision defaultEngine "cycle" 7) = true ∧
    isOkE (adjustSubdivision defaultEngine "microstep" 7) = false ∧
    adjustSubdivision defaultEngine "cycle" 7 =
      .ok ⟨setSubdivision defaultConfig 1 7, 3, buildUnitIndices defaultConfig,
        [24 * ((7 : ℚ) * 1000), (7 : ℚ) * 1000, 1000, 1]⟩ := by
  have h7 : (7 : ℤ) ≠ 0 := by decide
  refine ⟨(c8_adjust_subdivision_validation "cycle" 7 h7).1.mpr (Or.inr (Or.inl rfl)),
    ?_, (c8_adjust_subdivision_validation "cycle" 7 h7).2⟩
  have hme := (c8_adjust_subdivision_validation "microstep" 7 h7).1
  by_contra hb
  rw [Bool.not_eq_false] at hb
  rcases hme.mp hb with h | h | h <;> simp at h

/-- C5: scheduling T1 (100 steps), T2 (1 cycle, after T1), T3 (50 steps,
after T2) on one agent gives T1.start = zero, T1.end = the timepoint worth
100 steps, T2.start = T1.end, T2.end = add(T2.start, cycle=1), and
T3.start = T2.end. -/
theorem c5_schedule_chain :
    schedule defaultKs c5Tasks 1 = .ok
      [⟨"T1", [0, 0, 100, 0], [], some [0, 0, 0, 0], some [0, 1, 40, 0], some 0⟩,
       ⟨"T2", [0, 1, 0, 0], ["T1"], some [0, 1, 40, 0], some [0, 2, 40, 0], some 0⟩,
       ⟨"T3", [0, 0, 50, 0], ["T2"], some [0, 2, 40, 0], some [0, 3, 30, 0], some 0⟩] ∧
    [0, 0, 0, 0] = zeroTimepoint defaultKs ∧
    [0, 1, 40, 0] = fromBaseUnits defaultKs (100 * 1000) ∧
    [0, 2, 40, 0] = addTime defaultKs [0, 1, 40, 0] [0, 1, 0, 0] := by
  decide

/-- C6: on the three-task dependency cycle, the very first pass finds no
ready task and raises; the failure state keeps all three task records with
start and end unset. -/
theorem c6_cycle_detection :
    schedule defaultKs c6Tasks 1 = .error ([], c6Tasks) ∧
    c6Tasks.all (fun t => t.start == none && t.endTime == none) = true := by
  decide

/-- C7: `subtract_time` fails exactly when the delta exceeds the timepoint in
base units, and on any hierarchy it inverts `add_time` on canonical
timepoints. -/
theorem c7_subtract_inverse (ks : List ℕ) :
    (∀ tp delta : List ℕ,
      isOkE (subtractTime ks tp delta) = false ↔
        toBaseUnits ks tp < toBaseUnits ks delta) ∧
    (∀ a b : List ℕ, canonical ks a = true →
      subtractTime ks (addTime ks a b) b = .ok a) := by
  constructor
  · intro tp delta
    have hd : toBaseUnits ks (createTimepoint ks delta) = toBaseUnits ks delta :=
      toBaseUnits_fromBaseUnits ks (toBaseUnits ks delta)
    simp only [subtractTime, hd]
    split_ifs with h
    · simp [isOkE, h]
    · simp [isOkE, h]
  · intro a b hca
    have hadd : toBaseUnits ks (addTime ks a b)
        = toBaseUnits ks a + toBaseUnits ks (createTimepoint ks b) :=
      toBaseUnits_fromBaseUnits ks _
    simp only [subtractTime, hadd]
    rw [if_neg (by omega), Nat.add_sub_cancel,
      fromBaseUnits_toBaseUnits ks a hca]

theorem c7_subtract_inverse_witness :
    isOkE (subtractTime defaultKs [0, 0, 0, 0] [0, 0, 0, 1]) = false ∧
    subtractTime defaultKs (addTime defaultKs [1, 2, 3, 4] [0, 0, 5, 0]) [0, 0, 5, 0]
      = .ok [1, 2, 3, 4] :=
  ⟨((c7_subtract_inverse defaultKs).1 [0, 0, 0, 0] [0, 0, 0, 1]).mpr (by decide),
   (c7_subtract_inverse defaultKs).2 [1, 2, 3, 4] [0, 0, 5, 0] (by decide)⟩

theorem canonical_defaultKs_shape (tp : List ℕ) (h : canonical defaultKs tp = true) :
    ∃ a b c d, tp = [a, b, c, d] ∧ b < 24 ∧ c < 60 ∧ d < 1000 := by
  match tp with
  | [] => simp [canonical, defaultKs] at h
  | [a] => simp [canonical, defaultKs] at h
  | [a, b] => simp [canonical, defaultKs] at h
  | [a, b, c] => simp [canonical, defaultKs] at h
  | a :: b :: c :: d :: e :: rest => simp [canonical, defaultKs] at h
  | [a, b, c, d] =>
    refine ⟨a, b, c, d, rfl, ?_⟩
    simpa [defaultKs, canonical, Bool.and_eq_true, decide_eq_true_eq, and_assoc] using h

/-- C10: on the default hierarchy, `to_human_time` emits exactly the hours,
minutes and seconds entries (epoch, cycle, step) and drops the microstep
coordinate; hence the round trip through `from_human_time` returns the
timepoint with microstep zeroed, and is the identity exactly when the
microstep coordinate was 0. -/
theorem c10_human_roundtrip (tp : List ℕ) (h : canonical defaultKs tp = true) :
    (toHumanTime tp).map Prod.fst = ["hours", "minutes", "seconds"] ∧
    fromHumanTime (toHumanTime tp) = .ok (tp.set 3 0) ∧
    (fromHumanTime (toHumanTime tp) = .ok tp ↔ tp.get? 3 = some 0) := by
  obtain ⟨a, b, c, d, rfl, hb, hc, hd⟩ := canonical_defaultKs_shape tp h
  have hn : normalize defaultKs [a, b, c, d] = [a, b, c, d] :=
    fromBaseUnits_toBaseUnits defaultKs _ h
  have hth : toHumanTime [a, b, c, d]
      = [("hours", a), ("minutes", b), ("seconds", c)] := by
    simp only [toHumanTime, hn]
    rfl
  have hn0 : canonical defaultKs [a, b, c, 0] = true := by
    simp [canonical, defaultKs, hb, hc]
  have hfh : fromHumanTime [("hours", a), ("minutes", b), ("seconds", c)]
      = .ok [a, b, c, 0] := by
    show Except.ok (normalize defaultKs [a, b, c, 0]) = .ok [a, b, c, 0]
    exact congrArg Except.ok (fromBaseUnits_toBaseUnits defaultKs _ hn0)
  refine ⟨by rw [hth]; rfl, by rw [hth, hfh]; rfl, ?_⟩
  rw [hth, hfh]
  constructor
  · intro heq
    have hl := Except.ok.inj heq
    have hd0 : (0 : ℕ) = d := by
      simpa using congrArg (fun l => l.get? 3) hl
    simp [← hd0]
  · intro hg
    have hd0 : d = 0 := by simpa using hg
    subst hd0
    rfl

theorem c10_human_roundtrip_witness :
    (toHumanTime [1, 2, 3, 4]).map Prod.fst = ["hours", "minutes", "seconds"] ∧
    fromHumanTime (toHumanTime [1, 2, 3, 4]) = .ok [1, 2, 3, 0] :=
  ⟨(c10_human_roundtrip [1, 2, 3, 4] (by decide)).1,
   (c10_human_roundtrip [1, 2, 3, 4] (by decide)).2.1⟩

/-- C9: every wrapped operation delegates to the engine and then tracks
itself exactly once (a raising delegate leaves the counters untouched);
`track_operation` bumps the per-operation history counter by one and leaves
the others alone, and on the call that brings the threshold counter to the
adaptation threshold (default 100) it runs the adjustment check and resets
the threshold counter to 0 while the history counters persist. -/
theorem c9_operation_tracking (ks : List ℕ) (s : AdaptiveState)
    (tp delta t1 t2 : List ℕ) (hm : List (String × ℕ)) :
    addTimeTracked ks s tp delta
      = (addTime ks tp delta, trackOperation s "add" none) ∧
    (isOkE (subtractTime ks tp delta) = true →
      subtractTimeTracked ks s tp delta
        = (subtractTime ks tp delta, trackOperation s "subtract" none)) ∧
    compareTimepointsTracked ks s t1 t2
      = (compareTimepoints ks t1 t2, trackOperation s "compare" none) ∧
    toHumanTimeTracked s tp = (toHumanTime tp, trackOperation s "to_human" none) ∧
    (isOkE (fromHumanTime hm) = true →
      fromHumanTimeTracked s hm
        = (fromHumanTime hm, trackOperation s "from_human" none)) ∧
    initialAdaptiveState.adaptationThreshold = 100 ∧
    (∀ op : String,
      (trackOperation s op none).operations op = s.operations op + 1 ∧
      (∀ k : String, k ≠ op → (trackOperation s op none).operations k
        = s.operations k) ∧
      (s.opCounter + 1 = s.adaptationThreshold →
        (trackOperation s op none).opCounter = 0 ∧
        (trackOperation s op none).adjustmentChecks = s.adjustmentChecks + 1) ∧
      (s.opCounter + 1 < s.adaptationThreshold →
        (trackOperation s op none).opCounter = s.opCounter + 1 ∧
        (trackOperation s op none).adjustmentChecks = s.adjustmentChecks)) := by
  refine ⟨rfl, ?_, rfl, rfl, ?_, rfl, ?_⟩
  · intro hok
    unfold subtractTimeTracked
    cases hsub : subtractTime ks tp delta with
    | error e => rw [hsub] at hok; simp [isOkE] at hok
    | ok r => simp
  · intro hok
    unfold fromHumanTimeTracked
    cases hsub : fromHumanTime hm with
    | error e => rw [hsub] at hok; simp [isOkE] at hok
    | ok r => simp
  · intro op
    refine ⟨?_, ?_, ?_, ?_⟩
    · simp only [trackOperation]
      split_ifs with hth <;> simp [bumpCounter]
    · intro k hk
      simp only [trackOperation]
      split_ifs with hth <;> simp [bumpCounter, hk]
    · intro heq
      simp only [trackOperation]
      rw [if_pos (by omega)]
      exact ⟨rfl, rfl⟩
    · intro hlt
      simp only [trackOperation]
      rw [if_neg (by omega)]
      exact ⟨rfl, rfl⟩

theorem c9_operation_tracking_witness :
    (trackOperation ⟨fun _ => 0, 99, 100, 0⟩ "add" none).opCounter = 0 ∧
    (trackOperation ⟨fun _ => 0, 99, 100, 0⟩ "add" none).adjustmentChecks = 1 ∧
    (trackOperation ⟨fun _ => 0, 99, 100, 0⟩ "add" none).operations "add" = 1 ∧
    subtractTimeTracked defaultKs ⟨fun _ => 0, 0, 100, 0⟩ [0, 0, 0, 1] [0, 0, 0, 1]
      = (subtractTime defaultKs [0, 0, 0, 1] [0, 0, 0, 1],
         trackOperation ⟨fun _ => 0, 0, 100, 0⟩ "subtract" none) := by
  obtain ⟨-, -, -, -, -, -, htrack⟩ :=
    c9_operation_tracking defaultKs ⟨fun _ => 0, 99, 100, 0⟩ [] [] [] [] []
  obtain ⟨hop, -, hhit, -⟩ := htrack "add"
  have hh := hhit rfl
  obtain ⟨-, hsub, -, -, -, -, -⟩ :=
    c9_operation_tracking defaultKs ⟨fun _ => 0, 0, 100, 0⟩ [0, 0, 0, 1] [0, 0, 0, 1]
      [] [] []
  exact ⟨hh.1, hh.2, hop, hsub (by decide)⟩

end Timekeeper
